import Mathlib

/-!
Golf session store (`session.go`)

A shallow embedding of the in-memory session manager of package `Golf`
and proofs about it.

Modelling conventions

* A Go `error` is `Option GoError`; `none` is the `nil` error.  An error
  built by `fmt.Errorf` is kept as its format string and argument list.
* A Go `map[K]V` is `Option (List (K × V))`; `none` is the `nil` map.
  Writing to the `nil` map panics, reading from it finds nothing and
  `delete` on it does nothing.
* A Go `interface{}` value is `Option V`; `none` is the `nil` interface.
* `*MemorySession` is an index into a heap of `MemorySession` records, so
  that the registry and the callers share one object per session.
* A function that can panic returns `Option`; `none` is the panic.
* `crypto/rand.Read` is an external source: each call is described by a
  `ReadResult` (the bytes it stores, the count and the error it returns).
-/

set_option maxRecDepth 100000

namespace Golf

/-! ## Go substrate -/

/-- An error value made by `fmt.Errorf`: the format string and its arguments. -/
structure GoError where
  format : String
  args : List String
deriving DecidableEq, Repr

/-- Go's `error` interface; `none` is `nil`. -/
abbrev error := Option GoError

/-- The call `fmt.Errorf(format, args...)`. -/
def fmt.Errorf (format : String) (args : List String) : error :=
  some { format := format, args := args }

/-- A Go `byte`. -/
abbrev Byte := Fin 256

/-- A Go map; `none` is the `nil` map. Entries are kept in an association list. -/
abbrev GoMap (K V : Type) := Option (List (K × V))

/-- The call `make(map[K]V)`. -/
def GoMap.make {K V : Type} : GoMap K V := some []

/-- First value bound to `k` in an association list. -/
def entryLookup {K V : Type} [DecidableEq K] (k : K) : List (K × V) → Option V
  | [] => none
  | (k', v) :: rest => if k' = k then some v else entryLookup k rest

/-- All entries whose key is not `k`. -/
def entryErase {K V : Type} [DecidableEq K] (k : K) (l : List (K × V)) : List (K × V) :=
  l.filter (fun e => decide (e.1 ≠ k))

/-- The comma-ok read `v, ok := m[k]`: `some v` when `ok`, `none` otherwise. -/
def GoMap.lookup {K V : Type} [DecidableEq K] (m : GoMap K V) (k : K) : Option V :=
  match m with
  | none => none
  | some l => entryLookup k l

/-- The assignment `m[k] = v`; panics on the `nil` map. -/
def GoMap.assign {K V : Type} [DecidableEq K] (m : GoMap K V) (k : K) (v : V) :
    Option (GoMap K V) :=
  match m with
  | none => none
  | some l => some (some ((k, v) :: entryErase k l))

/-- The builtin `delete(m, k)`; a no-op on the `nil` map and on an absent key. -/
def GoMap.delete {K V : Type} [DecidableEq K] (m : GoMap K V) (k : K) : GoMap K V :=
  match m with
  | none => none
  | some l => some (entryErase k l)

/-- What one call of `rand.Read` does: the bytes it stores at the front of the
buffer, and the count and error it returns. -/
structure ReadResult where
  p : List Byte
  n : Int
  err : error
deriving DecidableEq, Repr

/-- The call `rand.Read(b)`: the buffer afterwards (its length is unchanged),
the count and the error. -/
def rand.Read (r : ReadResult) (b : List Byte) : List Byte × Int × error :=
  (r.p.take b.length ++ b.drop r.p.length, r.n, r.err)

/-- The digit table of `encoding/hex`. -/
def hex.hextable : String := "0123456789abcdef"

/-- The two digits `hextable[v>>4]`, `hextable[v&0x0f]` of one byte. -/
def hex.encodeByte (v : Byte) : List Char :=
  [hex.hextable.data.getD (v.val / 16) '0', hex.hextable.data.getD (v.val % 16) '0']

/-- The call `hex.EncodeToString(src)`. -/
def hex.EncodeToString (src : List Byte) : String :=
  String.mk (src.flatMap hex.encodeByte)

/-! ## The program -/

/-- Size in bytes of the random part of a session identifier. -/
def sessionIDLength : Nat := 64

/-- A `*MemorySession`: an address in the heap. -/
abbrev Ptr := Nat

/-- A value of the `Session` interface: `nil` or a `*MemorySession`. -/
abbrev Session := Option Ptr

/-- Memory based implementation of `Session`. -/
structure MemorySession (V : Type) where
  sid : String
  data : GoMap String (Option V)

/-- The allocated `MemorySession` objects; a pointer is an index. -/
abbrev Heap (V : Type) := List (MemorySession V)

/-- Manager of a map of sessions. -/
structure MemorySessionManager where
  sessions : GoMap String Ptr

/-- Creates a new session manager. -/
def NewMemorySessionManager : MemorySessionManager :=
  { sessions := GoMap.make }

/-- Draws `sessionIDLength` random bytes and hex-encodes them. -/
def MemorySessionManager.sessionID (_mgr : MemorySessionManager) (r : ReadResult) :
    String × error :=
  let b : List Byte := List.replicate sessionIDLength 0
  let res := rand.Read r b
  let b := res.1
  let n := res.2.1
  let err := res.2.2
  if n ≠ (b.length : Int) ∨ err ≠ none then
    ("", fmt.Errorf "Could not successfully read from the system CSPRNG." [])
  else
    (hex.EncodeToString b, none)

/-- Gets the session instance registered under a session id. -/
def MemorySessionManager.Session (mgr : MemorySessionManager) (sid : String) :
    Golf.Session × error :=
  match mgr.sessions.lookup sid with
  | some s => (some s, none)
  | none => (none, fmt.Errorf "Can not retrieve session with id %s." [sid])

/-- Creates, registers and returns a new session. The result is the manager
and heap afterwards with the returned pair; `none` is a panic. -/
def MemorySessionManager.NewSession {V : Type} (mgr : MemorySessionManager) (h : Heap V)
    (r : ReadResult) : Option ((MemorySessionManager × Heap V) × (Golf.Session × error)) :=
  let res := mgr.sessionID r
  let sid := res.1
  let err := res.2
  if err ≠ none then
    some ((mgr, h), (none, err))
  else
    let s : MemorySession V := { sid := sid, data := GoMap.make }
    let addr : Ptr := h.length
    match mgr.sessions.assign sid addr with
    | none => none
    | some sessions => some (({ sessions := sessions }, h ++ [s]), (some addr, none))

/-- Sets the key value pair in the session `s` points to. -/
def MemorySession.Set {V : Type} (h : Heap V) (s : Ptr) (key : String) (value : Option V) :
    Option (Heap V × error) :=
  match h[s]? with
  | none => none
  | some obj =>
    match obj.data.assign key value with
    | none => none
    | some data => some (h.set s { obj with data := data }, none)

/-- Gets the value bound to a key in the session `s` points to. -/
def MemorySession.Get {V : Type} (h : Heap V) (s : Ptr) (key : String) :
    Option (Option V × error) :=
  match h[s]? with
  | none => none
  | some obj =>
    match obj.data.lookup key with
    | some value => some (value, none)
    | none => some (none, fmt.Errorf "key %q in session (id %d) not found" [key, obj.sid])

/-- Deletes the binding of a key in the session `s` points to. -/
def MemorySession.Delete {V : Type} (h : Heap V) (s : Ptr) (key : String) :
    Option (Heap V × error) :=
  match h[s]? with
  | none => none
  | some obj => some (h.set s { obj with data := obj.data.delete key }, none)

/-- Returns the ID of the session `s` points to. -/
def MemorySession.SessionID {V : Type} (h : Heap V) (s : Ptr) : Option String :=
  match h[s]? with
  | none => none
  | some obj => some obj.sid

/-! ## Programs over one manager -/

/-- The memory a client of one manager sees: the manager and the heap. -/
structure World (V : Type) where
  mgr : MemorySessionManager
  heap : Heap V

/-- The world right after `NewMemorySessionManager()`. -/
def World.init {V : Type} : World V :=
  { mgr := NewMemorySessionManager, heap := [] }

/-- One call of the public API, with the outcome of `rand.Read` for `NewSession`. -/
inductive Call (V : Type) where
  | NewSession (r : ReadResult)
  | Session (sid : String)
  | Set (s : Ptr) (key : String) (value : Option V)
  | Get (s : Ptr) (key : String)
  | Delete (s : Ptr) (key : String)
  | SessionID (s : Ptr)

/-- What a call returns. -/
inductive Ret (V : Type) where
  | session (s : Session) (err : error)
  | err (err : error)
  | value (v : Option V) (err : error)
  | str (s : String)

/-- Runs one call; `none` is a panic. -/
def World.call {V : Type} (w : World V) : Call V → Option (World V × Ret V)
  | Call.NewSession r =>
    match w.mgr.NewSession w.heap r with
    | none => none
    | some res => some ({ mgr := res.1.1, heap := res.1.2 }, Ret.session res.2.1 res.2.2)
  | Call.Session sid =>
    let res := w.mgr.Session sid
    some (w, Ret.session res.1 res.2)
  | Call.Set s key value =>
    match MemorySession.Set w.heap s key value with
    | none => none
    | some res => some ({ w with heap := res.1 }, Ret.err res.2)
  | Call.Get s key =>
    match MemorySession.Get w.heap s key with
    | none => none
    | some res => some (w, Ret.value res.1 res.2)
  | Call.Delete s key =>
    match MemorySession.Delete w.heap s key with
    | none => none
    | some res => some ({ w with heap := res.1 }, Ret.err res.2)
  | Call.SessionID s =>
    match MemorySession.SessionID w.heap s with
    | none => none
    | some id => some (w, Ret.str id)

/-- The worlds reachable from a fresh manager by API calls, with the log of
the calls made and what each returned, most recent first. -/
inductive Reach {V : Type} : World V → List (Call V × Ret V) → Prop where
  | init : Reach World.init []
  | step {w w' : World V} {log : List (Call V × Ret V)} (c : Call V) (ret : Ret V) :
      Reach w log → w.call c = some (w', ret) → Reach w' ((c, ret) :: log)

/-- The session a log entry created: the pointer returned by a successful
`NewSession()`. -/
def createdBy {V : Type} : Call V × Ret V → Option Ptr
  | (Call.NewSession _, Ret.session (some s) none) => some s
  | _ => none

/-- The identifiers of the sessions returned by the successful `NewSession()`
calls of a log, read through `SessionID()` in heap `h`. -/
def issuedIDs {V : Type} (h : Heap V) (log : List (Call V × Ret V)) : List String :=
  log.filterMap fun e =>
    match createdBy e with
    | none => none
    | some s => MemorySession.SessionID h s

/-- The buffer a `NewSession()` call encodes when `rand.Read` behaves as `r`. -/
def drawn (r : ReadResult) : List Byte :=
  (rand.Read r (List.replicate sessionIDLength 0)).1

/-- The buffer drawn for a log entry that is a successful `NewSession()`. -/
def drawnBy {V : Type} : Call V × Ret V → Option (List Byte)
  | (Call.NewSession r, Ret.session (some _) none) => some (drawn r)
  | _ => none

/-- The buffers `rand.Read` left in the successful `NewSession()` calls of a log. -/
def drawnBuffers {V : Type} (log : List (Call V × Ret V)) : List (List Byte) :=
  log.filterMap drawnBy

/-- How a log relates to the world it led to: the sessions it created are
live, their identifiers are the encodings of the buffers drawn, and the
registry binds exactly those identifiers. -/
structure LogInv {V : Type} (w : World V) (log : List (Call V × Ret V)) : Prop where
  created_lt : ∀ e ∈ log, ∀ s : Ptr, createdBy e = some s → s < w.heap.length
  issued_eq : issuedIDs w.heap log = (drawnBuffers log).map hex.EncodeToString
  registry : ∀ id : String, w.mgr.sessions.lookup id ≠ none ↔ id ∈ issuedIDs w.heap log

/-- Well-formed worlds: the registry is not the `nil` map, no session has a
`nil` data map, and every registry entry points to a live session that
carries the entry's key as its identifier. -/
structure World.WF {V : Type} (w : World V) : Prop where
  sessions_ne : w.mgr.sessions ≠ none
  data_ne : ∀ (s : Ptr) (obj : MemorySession V), w.heap[s]? = some obj → obj.data ≠ none
  bound : ∀ (id : String) (s : Ptr), w.mgr.sessions.lookup id = some s →
    ∃ obj, w.heap[s]? = some obj ∧ obj.sid = id

/-- One of the data operations a caller applies to a session. -/
inductive SessionOp (V : Type) where
  | Set (key : String) (value : Option V)
  | Get (key : String)
  | Delete (key : String)

/-- Applies one data operation to the session `s` points to and gives the
heap afterwards; `none` is a panic. -/
def SessionOp.apply {V : Type} (h : Heap V) (s : Ptr) : SessionOp V → Option (Heap V)
  | SessionOp.Set key value =>
    match MemorySession.Set h s key value with
    | none => none
    | some res => some res.1
  | SessionOp.Get key =>
    match MemorySession.Get h s key with
    | none => none
    | some _ => some h
  | SessionOp.Delete key =>
    match MemorySession.Delete h s key with
    | none => none
    | some res => some res.1

/-- Applies a finite sequence of data operations to the session `s` points to,
first operation first. -/
def applyOps {V : Type} (h : Heap V) (s : Ptr) : List (SessionOp V) → Option (Heap V)
  | [] => some h
  | op :: rest =>
    match op.apply h s with
    | none => none
    | some h' => applyOps h' s rest

/-- One of `0`-`9` or lowercase `a`-`f`. -/
def isLowerHexDigit (c : Char) : Prop :=
  ('0' ≤ c ∧ c ≤ '9') ∨ ('a' ≤ c ∧ c ≤ 'f')

instance (c : Char) : Decidable (isLowerHexDigit c) := by
  unfold isLowerHexDigit; infer_instance

/-! ## Concrete data -/

/-- A read that delivers 64 bytes `7`. -/
def readSevens : ReadResult := { p := List.replicate 64 7, n := 64, err := none }

/-- A read that delivers 64 bytes `171`. -/
def readABs : ReadResult := { p := List.replicate 64 171, n := 64, err := none }

/-- A short read of 3 bytes. -/
def readShort : ReadResult := { p := [1, 2, 3], n := 3, err := none }

/-- A heap with one session whose bag binds `"user"` to `"alice"`. -/
def heapAlice : Heap String :=
  [{ sid := "0a", data := some [("user", some "alice")] }]

/-- The world after one successful `NewSession()` on a fresh manager. -/
def worldOne : World String :=
  { mgr := { sessions := some [(hex.EncodeToString (List.replicate 64 7), 0)] },
    heap := [{ sid := hex.EncodeToString (List.replicate 64 7), data := some [] }] }

/-- The world after two successful `NewSession()` calls that both drew the
bytes of `readSevens`: two sessions in the heap, one registry entry. -/
def worldTwo : World String :=
  { mgr := { sessions := some [(hex.EncodeToString (List.replicate 64 7), 1)] },
    heap := [{ sid := hex.EncodeToString (List.replicate 64 7), data := some [] },
             { sid := hex.EncodeToString (List.replicate 64 7), data := some [] }] }

/-- The log of `worldTwo`, most recent call first. -/
def logTwo : List (Call String × Ret String) :=
  [(Call.NewSession readSevens, Ret.session (some 1) none),
   (Call.NewSession readSevens, Ret.session (some 0) none)]

/-- The world after two successful `NewSession()` calls that drew the bytes
of `readSevens` and then those of `readABs`. -/
def worldAB : World String :=
  { mgr := { sessions := some [(hex.EncodeToString (List.replicate 64 171), 1),
                               (hex.EncodeToString (List.replicate 64 7), 0)] },
    heap := [{ sid := hex.EncodeToString (List.replicate 64 7), data := some [] },
             { sid := hex.EncodeToString (List.replicate 64 171), data := some [] }] }

/-- The log of `worldAB`, most recent call first. -/
def logAB : List (Call String × Ret String) :=
  [(Call.NewSession readABs, Ret.session (some 1) none),
   (Call.NewSession readSevens, Ret.session (some 0) none)]

/-- A sequence of data operations that sets, reads, deletes and sets again. -/
def opsMixed : List (SessionOp String) :=
  [SessionOp.Set "user" (some "alice"), SessionOp.Get "user", SessionOp.Delete "user",
   SessionOp.Get "role", SessionOp.Set "role" none]

/-- The heap of `worldOne` after `Set("user", "alice")` on its session. -/
def heapOneAlice : Heap String :=
  [{ sid := hex.EncodeToString (List.replicate 64 7), data := some [("user", some "alice")] }]

/-- The world after `NewSession()` drew the bytes of `readSevens` and
`Set("user", "alice")` was called on the session it returned. -/
def worldOneAlice : World String :=
  { mgr := worldOne.mgr, heap := heapOneAlice }

/-- The log of `worldOneAlice`, most recent call first. -/
def logOneAlice : List (Call String × Ret String) :=
  [(Call.Set 0 "user" (some "alice"), Ret.err none),
   (Call.NewSession readSevens, Ret.session (some 0) none)]

/-! ## Go maps -/

theorem entryErase_cons {K V : Type} [DecidableEq K] (k k' : K) (v : V) (rest : List (K × V)) :
    entryErase k ((k', v) :: rest)
      = if k' = k then entryErase k rest else (k', v) :: entryErase k rest := by
  by_cases hk : k' = k <;> simp [entryErase, List.filter_cons, hk]

theorem entryLookup_erase_self {K V : Type} [DecidableEq K] (k : K) (l : List (K × V)) :
    entryLookup k (entryErase k l) = none := by
  induction l with
  | nil => rfl
  | cons e rest ih =>
    obtain ⟨k', v⟩ := e
    rw [entryErase_cons]
    by_cases hk : k' = k
    · rw [if_pos hk]; exact ih
    · rw [if_neg hk, entryLookup, if_neg hk]; exact ih

theorem entryLookup_erase_ne {K V : Type} [DecidableEq K] {k k' : K} (hne : k' ≠ k)
    (l : List (K × V)) : entryLookup k' (entryErase k l) = entryLookup k' l := by
  induction l with
  | nil => rfl
  | cons e rest ih =>
    obtain ⟨k0, v⟩ := e
    rw [entryErase_cons]
    by_cases hk : k0 = k
    · have h0 : ¬ k0 = k' := fun h => hne (h ▸ hk)
      rw [if_pos hk, ih, entryLookup, if_neg h0]
    · rw [if_neg hk, entryLookup, entryLookup, ih]

theorem entryErase_of_lookup_none {K V : Type} [DecidableEq K] {k : K} {l : List (K × V)}
    (hl : entryLookup k l = none) : entryErase k l = l := by
  induction l with
  | nil => rfl
  | cons e rest ih =>
    obtain ⟨k', v⟩ := e
    rw [entryErase_cons]
    by_cases hk : k' = k
    · rw [entryLookup, if_pos hk] at hl
      exact absurd hl (by simp)
    · rw [entryLookup, if_neg hk] at hl
      rw [if_neg hk, ih hl]

theorem entryErase_idem {K V : Type} [DecidableEq K] (k : K) (l : List (K × V)) :
    entryErase k (entryErase k l) = entryErase k l :=
  entryErase_of_lookup_none (entryLookup_erase_self k l)

theorem GoMap.lookup_assign_self {K V : Type} [DecidableEq K] {m m' : GoMap K V} {k : K}
    {v : V} (h : m.assign k v = some m') : m'.lookup k = some v := by
  cases m with
  | none => simp [GoMap.assign] at h
  | some l =>
    simp only [GoMap.assign, Option.some.injEq] at h
    subst h
    simp [GoMap.lookup, entryLookup]

theorem GoMap.lookup_assign_ne {K V : Type} [DecidableEq K] {m m' : GoMap K V} {k k' : K}
    {v : V} (h : m.assign k v = some m') (hne : k' ≠ k) : m'.lookup k' = m.lookup k' := by
  cases m with
  | none => simp [GoMap.assign] at h
  | some l =>
    simp only [GoMap.assign, Option.some.injEq] at h
    subst h
    have h0 : k ≠ k' := fun h => hne h.symm
    simp [GoMap.lookup, entryLookup, h0, entryLookup_erase_ne hne]

theorem GoMap.lookup_delete_self {K V : Type} [DecidableEq K] (m : GoMap K V) (k : K) :
    (m.delete k).lookup k = none := by
  cases m with
  | none => rfl
  | some l => exact entryLookup_erase_self k l

theorem GoMap.delete_of_lookup_none {K V : Type} [DecidableEq K] {m : GoMap K V} {k : K}
    (h : m.lookup k = none) : m.delete k = m := by
  cases m with
  | none => rfl
  | some l => simp only [GoMap.delete]; rw [entryErase_of_lookup_none h]

theorem GoMap.delete_delete {K V : Type} [DecidableEq K] (m : GoMap K V) (k : K) :
    (m.delete k).delete k = m.delete k :=
  GoMap.delete_of_lookup_none (GoMap.lookup_delete_self m k)

/-! ## The heap -/

theorem heap_lt_of_get {V : Type} {h : Heap V} {s : Ptr} {obj : MemorySession V}
    (hs : h[s]? = some obj) : s < h.length := by
  rcases List.getElem?_eq_some_iff.mp hs with ⟨hlt, _⟩
  exact hlt

theorem heap_get_set_self {V : Type} {h : Heap V} {s : Ptr} {obj : MemorySession V}
    (hs : h[s]? = some obj) (x : MemorySession V) : (h.set s x)[s]? = some x :=
  List.getElem?_set_self (heap_lt_of_get hs)

theorem heap_set_same {V : Type} {h : Heap V} {s : Ptr} {obj : MemorySession V}
    (hs : h[s]? = some obj) : h.set s obj = h := by
  apply List.ext_getElem?
  intro i
  by_cases hi : s = i
  · subst hi
    rw [heap_get_set_self hs, hs]
  · rw [List.getElem?_set_ne hi]

/-! ## One session -/

theorem Set_eq {V : Type} {h : Heap V} {s : Ptr} {obj : MemorySession V}
    (hs : h[s]? = some obj) {l : List (String × Option V)} (hd : obj.data = some l)
    (k : String) (v : Option V) :
    MemorySession.Set h s k v
      = some (h.set s { obj with data := some ((k, v) :: entryErase k l) }, none) := by
  simp [MemorySession.Set, hs, hd, GoMap.assign]

theorem Get_eq {V : Type} {h : Heap V} {s : Ptr} {obj : MemorySession V}
    (hs : h[s]? = some obj) (k : String) :
    MemorySession.Get h s k
      = match obj.data.lookup k with
        | some value => some (value, none)
        | none => some (none, fmt.Errorf "key %q in session (id %d) not found" [k, obj.sid]) := by
  simp [MemorySession.Get, hs]

theorem Delete_eq {V : Type} {h : Heap V} {s : Ptr} {obj : MemorySession V}
    (hs : h[s]? = some obj) (k : String) :
    MemorySession.Delete h s k
      = some (h.set s { obj with data := obj.data.delete k }, none) := by
  simp [MemorySession.Delete, hs]

theorem Set_then_Get {V : Type} {h : Heap V} {s : Ptr} {obj : MemorySession V}
    (hs : h[s]? = some obj) (hd : obj.data ≠ none) (k : String) (v : Option V) :
    ∃ h', MemorySession.Set h s k v = some (h', none)
      ∧ MemorySession.Get h' s k = some (v, none) := by
  obtain ⟨l, hl⟩ := Option.ne_none_iff_exists'.mp hd
  refine ⟨_, Set_eq hs hl k v, ?_⟩
  rw [Get_eq (heap_get_set_self hs _) k]
  simp [GoMap.lookup, entryLookup]

/-! ## Identifier generation -/

theorem rand_Read_length (r : ReadResult) (b : List Byte) :
    (rand.Read r b).1.length = b.length := by
  simp only [rand.Read, List.length_append, List.length_take, List.length_drop]
  omega

theorem drawn_length (r : ReadResult) : (drawn r).length = 64 := by
  rw [drawn, rand_Read_length, List.length_replicate, sessionIDLength]

theorem sessionID_fail (mgr : MemorySessionManager) {r : ReadResult}
    (hr : r.n ≠ 64 ∨ r.err ≠ none) :
    mgr.sessionID r
      = ("", fmt.Errorf "Could not successfully read from the system CSPRNG." []) := by
  have hlen := drawn_length r
  simp only [drawn] at hlen
  simp only [MemorySessionManager.sessionID, hlen]
  rw [if_pos]
  simpa [rand.Read] using hr

theorem sessionID_ok (mgr : MemorySessionManager) {r : ReadResult}
    (hn : r.n = 64) (he : r.err = none) :
    mgr.sessionID r = (hex.EncodeToString (drawn r), none) := by
  have hlen := drawn_length r
  simp only [drawn] at hlen
  simp only [MemorySessionManager.sessionID, hlen, drawn]
  rw [if_neg]
  simp [rand.Read, hn, he]

theorem NewSession_fail {V : Type} (mgr : MemorySessionManager) (h : Heap V) {r : ReadResult}
    (hr : r.n ≠ 64 ∨ r.err ≠ none) :
    mgr.NewSession h r
      = some ((mgr, h),
          (none, fmt.Errorf "Could not successfully read from the system CSPRNG." [])) := by
  simp [MemorySessionManager.NewSession, sessionID_fail mgr hr, fmt.Errorf]

theorem NewSession_ok {V : Type} {mgr : MemorySessionManager} (h : Heap V) {r : ReadResult}
    (hn : r.n = 64) (he : r.err = none) {reg : List (String × Ptr)}
    (hreg : mgr.sessions = some reg) :
    mgr.NewSession h r
      = some (({ sessions := some ((hex.EncodeToString (drawn r), h.length)
                  :: entryErase (hex.EncodeToString (drawn r)) reg) },
               h ++ [{ sid := hex.EncodeToString (drawn r), data := GoMap.make }]),
              (some h.length, none)) := by
  simp [MemorySessionManager.NewSession, sessionID_ok mgr hn he, hreg, GoMap.assign]

theorem NewSession_panic {V : Type} {mgr : MemorySessionManager} (h : Heap V) {r : ReadResult}
    (hn : r.n = 64) (he : r.err = none) (hreg : mgr.sessions = none) :
    mgr.NewSession h r = none := by
  simp [MemorySessionManager.NewSession, sessionID_ok mgr hn he, hreg, GoMap.assign]

/-! ## Reachable worlds are well formed -/

theorem WF_init {V : Type} : (World.init : World V).WF where
  sessions_ne := by simp [World.init, NewMemorySessionManager, GoMap.make]
  data_ne := by intro s obj hs; simp [World.init] at hs
  bound := by
    intro id s hs
    simp [World.init, NewMemorySessionManager, GoMap.make, GoMap.lookup, entryLookup] at hs

theorem WF_update {V : Type} {w : World V} (hw : w.WF) {s : Ptr} {obj : MemorySession V}
    (hs : w.heap[s]? = some obj) {d : GoMap String (Option V)} (hd : d ≠ none) :
    World.WF { w with heap := w.heap.set s { obj with data := d } } where
  sessions_ne := hw.sessions_ne
  data_ne := by
    intro i x hi
    by_cases hsi : s = i
    · subst hsi
      rw [heap_get_set_self hs] at hi
      cases hi
      exact hd
    · rw [show ({ w with heap := w.heap.set s { obj with data := d } } : World V).heap
            = w.heap.set s { obj with data := d } from rfl, List.getElem?_set_ne hsi] at hi
      exact hw.data_ne i x hi
  bound := by
    intro id p hp
    obtain ⟨x, hx, hxid⟩ := hw.bound id p hp
    by_cases hsp : s = p
    · subst hsp
      refine ⟨_, heap_get_set_self hs _, ?_⟩
      rw [hs] at hx
      cases hx
      exact hxid
    · refine ⟨x, ?_, hxid⟩
      show (w.heap.set s { obj with data := d })[p]? = some x
      rw [List.getElem?_set_ne hsp]
      exact hx

theorem WF_NewSession {V : Type} {w : World V} (hw : w.WF) (id : String)
    {reg : List (String × Ptr)} (hreg : w.mgr.sessions = some reg) :
    World.WF
      { mgr := { sessions := some ((id, w.heap.length) :: entryErase id reg) },
        heap := w.heap ++ [{ sid := id, data := (GoMap.make : GoMap String (Option V)) }] } where
  sessions_ne := by simp
  data_ne := by
    intro i x hi
    simp only at hi
    by_cases hlt : i < w.heap.length
    · rw [List.getElem?_append_left hlt] at hi
      exact hw.data_ne i x hi
    · rw [List.getElem?_append_right (Nat.le_of_not_lt hlt)] at hi
      rcases List.getElem?_eq_some_iff.mp hi with ⟨_, hx⟩
      simp only [List.getElem_singleton] at hx
      subst hx
      simp [GoMap.make]
  bound := by
    intro id' p hp
    simp only [GoMap.lookup, entryLookup] at hp
    by_cases hid : id = id'
    · subst hid
      simp only [if_true, Option.some.injEq] at hp
      subst hp
      exact ⟨_, List.getElem?_concat_length _ _, rfl⟩
    · rw [if_neg hid, entryLookup_erase_ne (fun h => hid h.symm)] at hp
      have hp' : w.mgr.sessions.lookup id' = some p := by rw [hreg]; exact hp
      obtain ⟨x, hx, hxid⟩ := hw.bound id' p hp'
      refine ⟨x, ?_, hxid⟩
      show (w.heap ++ [_])[p]? = some x
      rw [List.getElem?_append_left (heap_lt_of_get hx)]
      exact hx

/-- The three shapes of a call that returns: the world is unchanged, or one
session's data map was replaced by a non-nil one, or a session was created. -/
theorem call_cases {V : Type} {w w' : World V} (hw : w.WF) {c : Call V} {ret : Ret V}
    (hc : w.call c = some (w', ret)) :
    (w' = w ∧ createdBy (c, ret) = none ∧ drawnBy (c, ret) = none)
    ∨ (∃ (s : Ptr) (obj : MemorySession V) (d : GoMap String (Option V)),
        w.heap[s]? = some obj ∧ d ≠ none
        ∧ w' = { w with heap := w.heap.set s { obj with data := d } }
        ∧ createdBy (c, ret) = none ∧ drawnBy (c, ret) = none)
    ∨ (∃ (r : ReadResult) (reg : List (String × Ptr)),
        c = Call.NewSession r ∧ r.n = 64 ∧ r.err = none ∧ w.mgr.sessions = some reg
        ∧ w' = { mgr := { sessions := some ((hex.EncodeToString (drawn r), w.heap.length)
                            :: entryErase (hex.EncodeToString (drawn r)) reg) },
                 heap := w.heap ++ [{ sid := hex.EncodeToString (drawn r),
                                      data := GoMap.make }] }
        ∧ ret = Ret.session (some w.heap.length) none) := by
  cases c with
  | NewSession r =>
    by_cases hr : r.n ≠ 64 ∨ r.err ≠ none
    · left
      simp only [World.call, NewSession_fail w.mgr w.heap hr, Option.some.injEq,
        Prod.mk.injEq] at hc
      obtain ⟨h1, h2⟩ := hc
      subst h1 h2
      exact ⟨rfl, rfl, rfl⟩
    · right; right
      have hn : r.n = 64 := by
        by_contra h; exact hr (Or.inl h)
      have he : r.err = none := by
        by_contra h; exact hr (Or.inr h)
      obtain ⟨reg, hreg⟩ := Option.ne_none_iff_exists'.mp hw.sessions_ne
      simp only [World.call, NewSession_ok w.heap hn he hreg, Option.some.injEq,
        Prod.mk.injEq] at hc
      obtain ⟨h1, h2⟩ := hc
      exact ⟨r, reg, rfl, hn, he, hreg, h1.symm, h2.symm⟩
  | Session sid =>
    left
    simp only [World.call, Option.some.injEq, Prod.mk.injEq] at hc
    obtain ⟨h1, h2⟩ := hc
    subst h1 h2
    exact ⟨rfl, rfl, rfl⟩
  | Set s key value =>
    right; left
    cases hs : w.heap[s]? with
    | none => simp [World.call, MemorySession.Set, hs] at hc
    | some obj =>
      obtain ⟨l, hl⟩ := Option.ne_none_iff_exists'.mp (hw.data_ne s obj hs)
      simp only [World.call, Set_eq hs hl, Option.some.injEq, Prod.mk.injEq] at hc
      obtain ⟨h1, h2⟩ := hc
      subst h1 h2
      exact ⟨s, obj, _, hs, by simp, rfl, rfl, rfl⟩
  | Get s key =>
    left
    cases hg : MemorySession.Get w.heap s key with
    | none => simp [World.call, hg] at hc
    | some res =>
      simp only [World.call, hg, Option.some.injEq, Prod.mk.injEq] at hc
      obtain ⟨h1, h2⟩ := hc
      subst h1 h2
      exact ⟨rfl, rfl, rfl⟩
  | Delete s key =>
    right; left
    cases hs : w.heap[s]? with
    | none => simp [World.call, MemorySession.Delete, hs] at hc
    | some obj =>
      obtain ⟨l, hl⟩ := Option.ne_none_iff_exists'.mp (hw.data_ne s obj hs)
      simp only [World.call, Delete_eq hs, Option.some.injEq, Prod.mk.injEq] at hc
      obtain ⟨h1, h2⟩ := hc
      subst h1 h2
      exact ⟨s, obj, _, hs, by simp [hl, GoMap.delete], rfl, rfl, rfl⟩
  | SessionID s =>
    left
    cases hg : MemorySession.SessionID w.heap s with
    | none => simp [World.call, hg] at hc
    | some res =>
      simp only [World.call, hg, Option.some.injEq, Prod.mk.injEq] at hc
      obtain ⟨h1, h2⟩ := hc
      subst h1 h2
      exact ⟨rfl, rfl, rfl⟩

theorem Reach.wf {V : Type} {w : World V} {log : List (Call V × Ret V)}
    (hr : Reach w log) : w.WF := by
  induction hr with
  | init => exact WF_init
  | step c ret _ hc ih =>
    rcases call_cases ih hc with ⟨h, _⟩ | ⟨s, obj, d, hs, hd, h, _⟩
      | ⟨r, reg, _, _, _, hreg, h, _⟩
    · rw [h]; exact ih
    · rw [h]; exact WF_update ih hs hd
    · rw [h]; exact WF_NewSession ih _ hreg

/-! ## The log of a reachable world -/

theorem SessionID_eq {V : Type} (h : Heap V) (s : Ptr) :
    MemorySession.SessionID h s = (h[s]?).map (fun obj => obj.sid) := by
  cases hs : h[s]? <;> simp [MemorySession.SessionID, hs]

theorem SessionID_set {V : Type} {h : Heap V} {s : Ptr} {obj : MemorySession V}
    (hs : h[s]? = some obj) (d : GoMap String (Option V)) (p : Ptr) :
    MemorySession.SessionID (h.set s { obj with data := d }) p
      = MemorySession.SessionID h p := by
  rw [SessionID_eq, SessionID_eq]
  by_cases hsp : s = p
  · subst hsp
    rw [heap_get_set_self hs, hs]
    rfl
  · rw [List.getElem?_set_ne hsp]

theorem SessionID_append {V : Type} (h : Heap V) (x : MemorySession V) {p : Ptr}
    (hp : p < h.length) :
    MemorySession.SessionID (h ++ [x]) p = MemorySession.SessionID h p := by
  rw [SessionID_eq, SessionID_eq, List.getElem?_append_left hp]

theorem issuedIDs_congr {V : Type} {h h' : Heap V} {log : List (Call V × Ret V)}
    (hh : ∀ e ∈ log, ∀ s : Ptr, createdBy e = some s →
      MemorySession.SessionID h' s = MemorySession.SessionID h s) :
    issuedIDs h' log = issuedIDs h log := by
  induction log with
  | nil => rfl
  | cons e rest ih =>
    have hrest := ih (fun e' he' => hh e' (List.mem_cons_of_mem _ he'))
    simp only [issuedIDs] at hrest ⊢
    rw [List.filterMap_cons, List.filterMap_cons, hrest]
    cases hc : createdBy e with
    | none => rfl
    | some s => simp only [hh e (List.mem_cons_self _ _) s hc]

theorem issuedIDs_cons_none {V : Type} (h : Heap V) {e : Call V × Ret V}
    (he : createdBy e = none) (log : List (Call V × Ret V)) :
    issuedIDs h (e :: log) = issuedIDs h log := by
  simp only [issuedIDs]
  rw [List.filterMap_cons]
  simp only [he]

theorem drawnBuffers_cons_none {V : Type} {e : Call V × Ret V}
    (he : drawnBy e = none) (log : List (Call V × Ret V)) :
    drawnBuffers (e :: log) = drawnBuffers log := by
  simp only [drawnBuffers]
  rw [List.filterMap_cons]
  simp only [he]

theorem LogInv_init {V : Type} : LogInv (World.init : World V) [] where
  created_lt := by intro e he; simp at he
  issued_eq := rfl
  registry := by
    intro id
    simp [World.init, NewMemorySessionManager, GoMap.make, GoMap.lookup, entryLookup,
      issuedIDs]

theorem Reach.logInv {V : Type} {w : World V} {log : List (Call V × Ret V)}
    (hr : Reach w log) : LogInv w log := by
  induction hr with
  | init => exact LogInv_init
  | @step w w' log c ret hreach hc ih =>
    have hw := hreach.wf
    rcases call_cases hw hc with ⟨h, hcb, hdb⟩ | ⟨s, obj, d, hs, hd, h, hcb, hdb⟩
      | ⟨r, reg, hcr, hn, he, hreg, h, hret⟩
    · subst h
      refine ⟨?_, ?_, ?_⟩
      · intro e he s hes
        rcases List.mem_cons.mp he with rfl | he'
        · rw [hcb] at hes; cases hes
        · exact ih.created_lt e he' s hes
      · rw [issuedIDs_cons_none _ hcb, drawnBuffers_cons_none hdb]; exact ih.issued_eq
      · intro id
        rw [issuedIDs_cons_none _ hcb]; exact ih.registry id
    · subst h
      have hsame : issuedIDs (w.heap.set s { obj with data := d }) log
          = issuedIDs w.heap log :=
        issuedIDs_congr (fun e _ p _ => SessionID_set hs d p)
      refine ⟨?_, ?_, ?_⟩
      · intro e he p hep
        rcases List.mem_cons.mp he with rfl | he'
        · rw [hcb] at hep; cases hep
        · simpa using ih.created_lt e he' p hep
      · rw [issuedIDs_cons_none _ hcb, drawnBuffers_cons_none hdb]
        exact hsame.trans ih.issued_eq
      · intro id
        rw [issuedIDs_cons_none _ hcb]
        show w.mgr.sessions.lookup id ≠ none ↔ _
        rw [hsame]; exact ih.registry id
    · subst h hcr hret
      have hsame : issuedIDs (w.heap ++ [MemorySession.mk (hex.EncodeToString (drawn r))
            (GoMap.make : GoMap String (Option V))]) log = issuedIDs w.heap log :=
        issuedIDs_congr (fun e he' p hep => SessionID_append _ _ (ih.created_lt e he' p hep))
      have hhead : issuedIDs (w.heap ++ [MemorySession.mk (hex.EncodeToString (drawn r))
            (GoMap.make : GoMap String (Option V))])
            ((Call.NewSession r, Ret.session (some w.heap.length) none) :: log)
          = hex.EncodeToString (drawn r) :: issuedIDs w.heap log := by
        rw [← hsame]
        simp only [issuedIDs]
        rw [List.filterMap_cons]
        simp [createdBy, SessionID_eq]
      refine ⟨?_, ?_, ?_⟩
      · intro e he' p hep
        rcases List.mem_cons.mp he' with rfl | he''
        · simp only [createdBy, Option.some.injEq] at hep
          subst hep
          simp
        · have hlt := ih.created_lt e he'' p hep
          show p < (w.heap ++ [_]).length
          rw [List.length_append, List.length_singleton]
          exact Nat.lt_add_right 1 hlt
      · rw [hhead, ih.issued_eq]
        simp only [drawnBuffers]
        rw [List.filterMap_cons]
        simp [drawnBy]
      · intro id
        rw [hhead, List.mem_cons, ← ih.registry id, hreg]
        simp only [GoMap.lookup, entryLookup]
        by_cases hid : hex.EncodeToString (drawn r) = id
        · simp [hid]
        · rw [if_neg hid, entryLookup_erase_ne (fun h => hid h.symm)]
          constructor
          · intro h; exact Or.inr h
          · rintro (h | h)
            · exact absurd h.symm hid
            · exact h

/-! ## Hex encoding -/

theorem hextable_digit : ∀ i : Fin 16, isLowerHexDigit (hex.hextable.data.getD i.val '0') := by
  decide

theorem hextable_inj : ∀ i j : Fin 16,
    hex.hextable.data.getD i.val '0' = hex.hextable.data.getD j.val '0' → i = j := by
  decide

theorem encodeByte_digits (v : Byte) : ∀ c ∈ hex.encodeByte v, isLowerHexDigit c := by
  intro c hc
  simp only [hex.encodeByte, List.mem_cons, List.mem_singleton, List.not_mem_nil,
    or_false] at hc
  have hv := v.isLt
  rcases hc with rfl | rfl
  · exact hextable_digit ⟨v.val / 16, by omega⟩
  · exact hextable_digit ⟨v.val % 16, by omega⟩

theorem encodeByte_inj {v v' : Byte} (h : hex.encodeByte v = hex.encodeByte v') : v = v' := by
  simp only [hex.encodeByte, List.cons.injEq, and_true] at h
  have hv := v.isLt
  have hv' := v'.isLt
  have h1 := hextable_inj ⟨v.val / 16, by omega⟩ ⟨v'.val / 16, by omega⟩ h.1
  have h2 := hextable_inj ⟨v.val % 16, by omega⟩ ⟨v'.val % 16, by omega⟩ h.2
  simp only [Fin.mk.injEq] at h1 h2
  apply Fin.ext
  omega

theorem EncodeToString_length (src : List Byte) :
    (hex.EncodeToString src).length = 2 * src.length := by
  simp only [hex.EncodeToString, String.length]
  induction src with
  | nil => rfl
  | cons v rest ih =>
    simp only [List.flatMap_cons, List.length_append, List.length_cons, ih, hex.encodeByte,
      List.length_nil]
    omega

theorem EncodeToString_digits (src : List Byte) :
    ∀ c ∈ (hex.EncodeToString src).toList, isLowerHexDigit c := by
  intro c hc
  simp only [hex.EncodeToString, String.toList, List.mem_flatMap] at hc
  obtain ⟨v, _, hv⟩ := hc
  exact encodeByte_digits v c hv

theorem encodeByte_append_inj {v v' : Byte} {l l' : List Char}
    (h : hex.encodeByte v ++ l = hex.encodeByte v' ++ l') : v = v' ∧ l = l' := by
  have h' : hex.encodeByte v = hex.encodeByte v' ∧ l = l' := by
    unfold hex.encodeByte at h ⊢
    simp only [List.cons_append, List.nil_append, List.cons.injEq] at h
    exact ⟨by rw [h.1, h.2.1], h.2.2⟩
  exact ⟨encodeByte_inj h'.1, h'.2⟩

theorem flatMap_encodeByte_inj {b b' : List Byte}
    (h : b.flatMap hex.encodeByte = b'.flatMap hex.encodeByte) : b = b' := by
  induction b generalizing b' with
  | nil =>
    cases b' with
    | nil => rfl
    | cons v' rest' =>
      have hlen := congrArg List.length h
      simp [hex.encodeByte] at hlen
  | cons v rest ih =>
    cases b' with
    | nil =>
      have hlen := congrArg List.length h
      simp [hex.encodeByte] at hlen
    | cons v' rest' =>
      rw [List.flatMap_cons, List.flatMap_cons] at h
      obtain ⟨hv, hrest⟩ := encodeByte_append_inj h
      rw [hv, ih hrest]

theorem EncodeToString_inj {b b' : List Byte}
    (h : hex.EncodeToString b = hex.EncodeToString b') : b = b' :=
  flatMap_encodeByte_inj (congrArg String.data h)

/-! ## Reachability of the concrete worlds -/

theorem worldOne_reach :
    Reach worldOne [(Call.NewSession readSevens, Ret.session (some 0) none)] :=
  Reach.step (Call.NewSession readSevens) (Ret.session (some 0) none) Reach.init rfl

theorem worldTwo_reach : Reach worldTwo logTwo :=
  Reach.step (Call.NewSession readSevens) (Ret.session (some 1) none) worldOne_reach rfl

theorem worldAB_reach : Reach worldAB logAB :=
  Reach.step (Call.NewSession readABs) (Ret.session (some 1) none) worldOne_reach rfl

theorem worldOneAlice_reach : Reach worldOneAlice logOneAlice :=
  Reach.step (Call.Set 0 "user" (some "alice")) (Ret.err none) worldOne_reach rfl

/-! ## Properties of the session operations -/

/-- C1: in a world reachable from a fresh manager, for every session `s` of the
heap (each was created by `NewSession`, and its bag may hold anything), every
key `k` and value `v`, `s.Set(k, v)` returns a nil error and `s.Get(k)` right
after returns exactly `v` with a nil error. -/
theorem Set_Get_roundtrip {V : Type} {w : World V} {log : List (Call V × Ret V)}
    (hr : Reach w log) (s : Ptr) (hs : s < w.heap.length) (k : String) (v : Option V) :
    ∃ h', MemorySession.Set w.heap s k v = some (h', none)
      ∧ MemorySession.Get h' s k = some (v, none) := by
  have hget : w.heap[s]? = some (w.heap.get ⟨s, hs⟩) := List.getElem?_eq_getElem hs
  exact Set_then_Get hget (hr.wf.data_ne s _ hget) k v

theorem Set_Get_roundtrip_witness :
    Reach worldOne [(Call.NewSession readSevens, Ret.session (some 0) none)]
    ∧ 0 < worldOne.heap.length
    ∧ ∃ h', MemorySession.Set worldOne.heap 0 "user" (some "alice") = some (h', none)
      ∧ MemorySession.Get h' 0 "user" = some (some "alice", none) :=
  ⟨worldOne_reach, by decide,
    Set_Get_roundtrip worldOne_reach 0 (by decide) "user" (some "alice")⟩

/-- C4: for every live session `s` (object `obj` in the heap) and key `k`,
`s.Get(k)` returns a nil value with a non-nil error if and only if `k` is not
bound in the data bag (the error is then the key-not-found error), and when `k`
is bound to `v` it returns `v` with a nil error. -/
theorem Get_fails_iff_absent {V : Type} (h : Heap V) (s : Ptr) (obj : MemorySession V)
    (hs : h[s]? = some obj) (k : String) :
    ((∃ v e, MemorySession.Get h s k = some (v, some e)) ↔ obj.data.lookup k = none)
    ∧ (obj.data.lookup k = none → MemorySession.Get h s k
        = some (none, fmt.Errorf "key %q in session (id %d) not found" [k, obj.sid]))
    ∧ (∀ v, obj.data.lookup k = some v → MemorySession.Get h s k = some (v, none)) := by
  rw [Get_eq hs k]
  cases hl : obj.data.lookup k with
  | none => simp [fmt.Errorf]
  | some v => simp

theorem Get_fails_iff_absent_witness :
    heapAlice[0]? = some { sid := "0a", data := some [("user", some "alice")] }
    ∧ MemorySession.Get heapAlice 0 "user" = some (some "alice", none)
    ∧ MemorySession.Get heapAlice 0 "role"
        = some (none, fmt.Errorf "key %q in session (id %d) not found" ["role", "0a"]) :=
  ⟨rfl,
    (Get_fails_iff_absent heapAlice 0 _ rfl "user").2.2 (some "alice") (by decide),
    (Get_fails_iff_absent heapAlice 0 { sid := "0a", data := some [("user", some "alice")] }
      rfl "role").2.1 (by decide)⟩

/-- C5: for every live session `s` and key `k`, bound in it or not, so in
particular for a bound one, `s.Delete(k)` returns a nil error and `s.Get(k)`
afterwards fails with the key-not-found error (and a nil value). -/
theorem Delete_then_Get_fails {V : Type} (h : Heap V) (s : Ptr) (obj : MemorySession V)
    (hs : h[s]? = some obj) (k : String) :
    ∃ h', MemorySession.Delete h s k = some (h', none)
      ∧ MemorySession.Get h' s k
        = some (none, fmt.Errorf "key %q in session (id %d) not found" [k, obj.sid]) := by
  refine ⟨_, Delete_eq hs k, ?_⟩
  rw [Get_eq (heap_get_set_self hs _) k]
  simp only [GoMap.lookup_delete_self]

theorem Delete_then_Get_fails_witness :
    heapAlice[0]? = some { sid := "0a", data := some [("user", some "alice")] }
    ∧ MemorySession.Get heapAlice 0 "user" = some (some "alice", none)
    ∧ ∃ h', MemorySession.Delete heapAlice 0 "user" = some (h', none)
      ∧ MemorySession.Get h' 0 "user"
        = some (none, fmt.Errorf "key %q in session (id %d) not found" ["user", "0a"]) :=
  ⟨rfl, by decide,
    Delete_then_Get_fails heapAlice 0
      { sid := "0a", data := some [("user", some "alice")] } rfl "user"⟩

/-- C6: for every live session `s` and key `k`, `s.Delete(k)` returns a nil
error whether or not `k` is bound; if `k` is not bound the heap, and so the
data bag, is unchanged; and a second `Delete(k)` returns a nil error and leaves
the state the first one produced. -/
theorem Delete_idempotent {V : Type} (h : Heap V) (s : Ptr) (obj : MemorySession V)
    (hs : h[s]? = some obj) (k : String) :
    ∃ h', MemorySession.Delete h s k = some (h', none)
      ∧ (obj.data.lookup k = none → h' = h)
      ∧ MemorySession.Delete h' s k = some (h', none) := by
  refine ⟨_, Delete_eq hs k, ?_, ?_⟩
  · intro hl
    rw [GoMap.delete_of_lookup_none hl]
    exact heap_set_same hs
  · rw [Delete_eq (heap_get_set_self hs _) k]
    simp only [GoMap.delete_delete, List.set_set]

theorem Delete_idempotent_witness :
    heapAlice[0]? = some { sid := "0a", data := some [("user", some "alice")] }
    ∧ ∃ h', MemorySession.Delete heapAlice 0 "missing" = some (h', none)
      ∧ (GoMap.lookup (some [("user", some "alice")]) "missing" = none → h' = heapAlice)
      ∧ MemorySession.Delete h' 0 "missing" = some (h', none) :=
  ⟨rfl,
    Delete_idempotent heapAlice 0 { sid := "0a", data := some [("user", some "alice")] }
      rfl "missing"⟩

/-! ## Properties of the manager -/

theorem NewSession_success_inv {V : Type} {mgr mgr' : MemorySessionManager} {h h' : Heap V}
    {r : ReadResult} {s : Ptr}
    (hnew : mgr.NewSession h r = some ((mgr', h'), (some s, none))) :
    ∃ reg, mgr.sessions = some reg ∧ r.n = 64 ∧ r.err = none ∧ s = h.length
      ∧ mgr' = { sessions := some ((hex.EncodeToString (drawn r), h.length)
                  :: entryErase (hex.EncodeToString (drawn r)) reg) }
      ∧ h' = h ++ [{ sid := hex.EncodeToString (drawn r), data := GoMap.make }] := by
  by_cases hr : r.n ≠ 64 ∨ r.err ≠ none
  · rw [NewSession_fail mgr h hr] at hnew
    simp at hnew
  · have hn : r.n = 64 := by
      by_contra hc; exact hr (Or.inl hc)
    have he : r.err = none := by
      by_contra hc; exact hr (Or.inr hc)
    cases hreg : mgr.sessions with
    | none =>
      rw [NewSession_panic h hn he hreg] at hnew
      cases hnew
    | some reg =>
      rw [NewSession_ok h hn he hreg] at hnew
      simp only [Option.some.injEq, Prod.mk.injEq, and_true] at hnew
      exact ⟨reg, rfl, hn, he, hnew.2.symm, hnew.1.1.symm, hnew.1.2.symm⟩

theorem Session_after_NewSession_aux {V : Type} {mgr mgr' : MemorySessionManager}
    {h h' : Heap V} {r : ReadResult} {s : Ptr}
    (hnew : mgr.NewSession h r = some ((mgr', h'), (some s, none))) :
    ∃ id, MemorySession.SessionID h' s = some id
      ∧ mgr'.Session id = (some s, none)
      ∧ h'[s]? = some { sid := id, data := GoMap.make } := by
  obtain ⟨reg, _, _, _, hs, hm, hh⟩ := NewSession_success_inv hnew
  subst hs hm hh
  refine ⟨hex.EncodeToString (drawn r), ?_, ?_, ?_⟩
  · rw [SessionID_eq, List.getElem?_concat_length]; rfl
  · simp [MemorySessionManager.Session, GoMap.lookup, entryLookup]
  · exact List.getElem?_concat_length _ _

/-- C2: whenever `NewSession()` succeeds and returns the session `s` (for any
manager and heap, so for every reachable one), `Session(s.SessionID())` right
after returns that same pointer `s` with a nil error; the object it points to
carries that identifier and the bag `NewSession` gave it. -/
theorem Session_after_NewSession {V : Type} (mgr mgr' : MemorySessionManager)
    (h h' : Heap V) (r : ReadResult) (s : Ptr)
    (hnew : mgr.NewSession h r = some ((mgr', h'), (some s, none))) :
    ∃ id, MemorySession.SessionID h' s = some id
      ∧ mgr'.Session id = (some s, none)
      ∧ h'[s]? = some { sid := id, data := GoMap.make } :=
  Session_after_NewSession_aux hnew

theorem Session_after_NewSession_witness :
    NewMemorySessionManager.NewSession ([] : Heap String) readSevens
      = some ((worldOne.mgr, worldOne.heap), (some 0, none))
    ∧ ∃ id, MemorySession.SessionID worldOne.heap 0 = some id
      ∧ worldOne.mgr.Session id = (some 0, none)
      ∧ worldOne.heap[0]? = some { sid := id, data := GoMap.make } :=
  ⟨rfl, Session_after_NewSession NewMemorySessionManager worldOne.mgr [] worldOne.heap
    readSevens 0 rfl⟩

/-- C3: in every world reachable from a fresh manager, `Session(id)` succeeds
if and only if `id` is the identifier of a session returned by an earlier
successful `NewSession()`; for every other `id` it returns no session and the
not-found error, and on a fresh manager it does so for every `id`. -/
theorem Session_succeeds_iff_issued {V : Type} {w : World V} {log : List (Call V × Ret V)}
    (hr : Reach w log) (id : String) :
    ((∃ s, w.mgr.Session id = (some s, none)) ↔ id ∈ issuedIDs w.heap log)
    ∧ (id ∉ issuedIDs w.heap log →
        w.mgr.Session id = (none, fmt.Errorf "Can not retrieve session with id %s." [id]))
    ∧ NewMemorySessionManager.Session id
        = (none, fmt.Errorf "Can not retrieve session with id %s." [id]) := by
  have hreg := hr.logInv.registry id
  refine ⟨?_, ?_, rfl⟩
  · rw [← hreg]
    cases hl : w.mgr.sessions.lookup id with
    | none => simp [MemorySessionManager.Session, hl, fmt.Errorf]
    | some s => simp [MemorySessionManager.Session, hl]
  · intro hid
    rw [← hreg, not_not] at hid
    simp [MemorySessionManager.Session, hid]

theorem Session_succeeds_iff_issued_witness :
    Reach worldOne [(Call.NewSession readSevens, Ret.session (some 0) none)]
    ∧ "nonexistent-id" ∉ issuedIDs worldOne.heap
        [(Call.NewSession readSevens, Ret.session (some 0) none)]
    ∧ worldOne.mgr.Session "nonexistent-id"
        = (none, fmt.Errorf "Can not retrieve session with id %s." ["nonexistent-id"]) :=
  ⟨worldOne_reach, by decide,
    (Session_succeeds_iff_issued worldOne_reach "nonexistent-id").2.1 (by decide)⟩

/-- C7: whenever the random source reports 64 bytes and no error, `sessionID`
returns a nil error and an identifier of exactly 128 characters, each one of
`0`-`9` or lowercase `a`-`f`; in a reachable world `NewSession()` then succeeds
and `SessionID()` of the session it returns is that identifier. -/
theorem sessionID_format {V : Type} {w : World V} {log : List (Call V × Ret V)}
    (hr : Reach w log) (r : ReadResult) (hn : r.n = 64) (he : r.err = none) :
    ∃ id, w.mgr.sessionID r = (id, none)
      ∧ id.length = 128
      ∧ (∀ c ∈ id.toList, isLowerHexDigit c)
      ∧ ∃ mgr' h' s, w.mgr.NewSession w.heap r = some ((mgr', h'), (some s, none))
          ∧ MemorySession.SessionID h' s = some id := by
  obtain ⟨reg, hreg⟩ := Option.ne_none_iff_exists'.mp hr.wf.sessions_ne
  refine ⟨hex.EncodeToString (drawn r), sessionID_ok w.mgr hn he, ?_,
    EncodeToString_digits _, _, _, _, NewSession_ok w.heap hn he hreg, ?_⟩
  · rw [EncodeToString_length, drawn_length]
  · rw [SessionID_eq, List.getElem?_concat_length]; rfl

theorem sessionID_format_witness :
    Reach (World.init : World String) [] ∧ readSevens.n = 64 ∧ readSevens.err = none
    ∧ ∃ id, NewMemorySessionManager.sessionID readSevens = (id, none)
      ∧ id.length = 128
      ∧ (∀ c ∈ id.toList, isLowerHexDigit c)
      ∧ ∃ mgr' h' s, NewMemorySessionManager.NewSession ([] : Heap String) readSevens
            = some ((mgr', h'), (some s, none))
          ∧ MemorySession.SessionID h' s = some id :=
  ⟨Reach.init, rfl, rfl, sessionID_format (Reach.init : Reach (World.init : World String) [])
    readSevens rfl rfl⟩

/-- C8: in every reachable world, `NewSession()` returns an error and no
session exactly when the random source reports a count other than 64 or an
error, and returns a session with a nil error exactly in every other case; it
has no third outcome. -/
theorem NewSession_fails_iff {V : Type} {w : World V} {log : List (Call V × Ret V)}
    (hr : Reach w log) (r : ReadResult) :
    ((∃ st e, w.mgr.NewSession w.heap r = some (st, (none, some e)))
        ↔ (r.n ≠ 64 ∨ r.err ≠ none))
    ∧ ((∃ st s, w.mgr.NewSession w.heap r = some (st, (some s, none)))
        ↔ ¬ (r.n ≠ 64 ∨ r.err ≠ none)) := by
  obtain ⟨reg, hreg⟩ := Option.ne_none_iff_exists'.mp hr.wf.sessions_ne
  by_cases hbad : r.n ≠ 64 ∨ r.err ≠ none
  · rw [NewSession_fail w.mgr w.heap hbad]
    simp [hbad, fmt.Errorf]
  · have hn : r.n = 64 := by
      by_contra hc; exact hbad (Or.inl hc)
    have he : r.err = none := by
      by_contra hc; exact hbad (Or.inr hc)
    rw [NewSession_ok w.heap hn he hreg]
    simp [hn, he]

theorem NewSession_fails_iff_witness :
    Reach worldOne [(Call.NewSession readSevens, Ret.session (some 0) none)]
    ∧ (∃ st e, worldOne.mgr.NewSession worldOne.heap readShort = some (st, (none, some e)))
    ∧ ∃ st s, worldOne.mgr.NewSession worldOne.heap readABs = some (st, (some s, none)) :=
  ⟨worldOne_reach,
    (NewSession_fails_iff worldOne_reach readShort).1.2 (by decide),
    (NewSession_fails_iff worldOne_reach readABs).2.2 (by decide)⟩

/-- C9, as stated, fails: two successful `NewSession()` calls on one manager
that draw the same 64 bytes return sessions with the same identifier. -/
theorem issued_ids_collide :
    Reach worldTwo logTwo
    ∧ issuedIDs worldTwo.heap logTwo
        = [hex.EncodeToString (List.replicate 64 7), hex.EncodeToString (List.replicate 64 7)]
    ∧ ¬ (issuedIDs worldTwo.heap logTwo).Nodup :=
  ⟨worldTwo_reach, by decide, by decide⟩

/-- C9, amended: in every reachable world the identifiers of the sessions
returned by the successful `NewSession()` calls are pairwise distinct exactly
when the buffers drawn by those calls are pairwise distinct; and two sessions
the manager holds (results of `Session`) that have the same identifier are the
same session. -/
theorem issued_ids_distinct_iff {V : Type} {w : World V} {log : List (Call V × Ret V)}
    (hr : Reach w log) :
    ((issuedIDs w.heap log).Nodup ↔ (drawnBuffers log).Nodup)
    ∧ ∀ (id1 id2 : String) (s1 s2 : Ptr),
        w.mgr.Session id1 = (some s1, none) → w.mgr.Session id2 = (some s2, none) →
        MemorySession.SessionID w.heap s1 = MemorySession.SessionID w.heap s2 → s1 = s2 := by
  constructor
  · rw [hr.logInv.issued_eq]
    exact List.nodup_map_iff (fun _ _ h => EncodeToString_inj h)
  · intro id1 id2 s1 s2 h1 h2 hsid
    have hl : ∀ (id : String) (s : Ptr), w.mgr.Session id = (some s, none) →
        w.mgr.sessions.lookup id = some s := by
      intro id s h
      cases hlk : w.mgr.sessions.lookup id with
      | none => simp [MemorySessionManager.Session, hlk] at h
      | some p =>
        simp only [MemorySessionManager.Session, hlk, Prod.mk.injEq, Option.some.injEq,
          and_true] at h
        rw [h]
    have hl1 := hl id1 s1 h1
    have hl2 := hl id2 s2 h2
    obtain ⟨o1, ho1, hid1⟩ := hr.wf.bound id1 s1 hl1
    obtain ⟨o2, ho2, hid2⟩ := hr.wf.bound id2 s2 hl2
    rw [SessionID_eq, SessionID_eq, ho1, ho2] at hsid
    simp only [Option.map_some', Option.some.injEq] at hsid
    have hid : id1 = id2 := by rw [← hid1, ← hid2, hsid]
    subst hid
    rw [hl1] at hl2
    exact Option.some.inj hl2

theorem issued_ids_distinct_iff_witness :
    Reach worldAB logAB
    ∧ (drawnBuffers logAB).Nodup
    ∧ (issuedIDs worldAB.heap logAB).Nodup :=
  ⟨worldAB_reach, by decide, (issued_ids_distinct_iff worldAB_reach).1.2 (by decide)⟩

/-- C10: if `m.NewSession()` succeeds and returns `s1` (for any manager and
heap), then `s1.Set(k, v)` returns a nil error, `m.Session(s1.SessionID())`
returns a session `s2` with a nil error, and `s2.Get(k)` returns `v` with a nil
error. -/
theorem Set_visible_through_Session {V : Type} (mgr mgr' : MemorySessionManager)
    (h h1 : Heap V) (r : ReadResult) (s1 : Ptr)
    (hnew : mgr.NewSession h r = some ((mgr', h1), (some s1, none)))
    (k : String) (v : Option V) :
    ∃ h2, MemorySession.Set h1 s1 k v = some (h2, none)
      ∧ ∃ id, MemorySession.SessionID h2 s1 = some id
        ∧ ∃ s2, mgr'.Session id = (some s2, none)
          ∧ MemorySession.Get h2 s2 k = some (v, none) := by
  obtain ⟨id, hid, hsess, hobj⟩ := Session_after_NewSession_aux hnew
  obtain ⟨h2, hset, hget⟩ := Set_then_Get hobj (by simp [GoMap.make]) k v
  refine ⟨h2, hset, id, ?_, s1, hsess, hget⟩
  rw [Set_eq hobj rfl k v] at hset
  simp only [Option.some.injEq, Prod.mk.injEq, and_true] at hset
  rw [← hset, SessionID_set hobj, hid]

theorem Set_visible_through_Session_witness :
    NewMemorySessionManager.NewSession ([] : Heap String) readSevens
      = some ((worldOne.mgr, worldOne.heap), (some 0, none))
    ∧ ∃ h2, MemorySession.Set worldOne.heap 0 "user" (some "alice") = some (h2, none)
      ∧ ∃ id, MemorySession.SessionID h2 0 = some id
        ∧ ∃ s2, worldOne.mgr.Session id = (some s2, none)
          ∧ MemorySession.Get h2 s2 "user" = some (some "alice", none) :=
  ⟨rfl, Set_visible_through_Session NewMemorySessionManager worldOne.mgr [] worldOne.heap
    readSevens 0 rfl "user" (some "alice")⟩

/-! ## Sequences of data operations -/

theorem SessionOp_apply_live {V : Type} {h : Heap V} {s : Ptr} {obj : MemorySession V}
    (hs : h[s]? = some obj) (hd : obj.data ≠ none) (op : SessionOp V) :
    ∃ h' obj', op.apply h s = some h' ∧ h'[s]? = some obj' ∧ obj'.sid = obj.sid
      ∧ obj'.data ≠ none := by
  obtain ⟨l, hl⟩ := Option.ne_none_iff_exists'.mp hd
  cases op with
  | Set key value =>
    refine ⟨_, MemorySession.mk obj.sid (some ((key, value) :: entryErase key l)), ?_,
      heap_get_set_self hs _, rfl, ?_⟩
    · simp only [SessionOp.apply, Set_eq hs hl]
    · simp
  | Get key =>
    refine ⟨h, obj, ?_, hs, rfl, hd⟩
    simp only [SessionOp.apply, Get_eq hs]
    cases obj.data.lookup key <;> rfl
  | Delete key =>
    refine ⟨_, MemorySession.mk obj.sid (obj.data.delete key), ?_,
      heap_get_set_self hs _, rfl, ?_⟩
    · simp only [SessionOp.apply, Delete_eq hs]
    · simp [hl, GoMap.delete]

theorem applyOps_live {V : Type} (ops : List (SessionOp V)) {h : Heap V} {s : Ptr}
    {obj : MemorySession V} (hs : h[s]? = some obj) (hd : obj.data ≠ none) :
    ∃ h' obj', applyOps h s ops = some h' ∧ h'[s]? = some obj' ∧ obj'.sid = obj.sid
      ∧ obj'.data ≠ none := by
  induction ops generalizing h obj with
  | nil => exact ⟨h, obj, rfl, hs, rfl, hd⟩
  | cons op rest ih =>
    obtain ⟨h1, obj1, hop, hs1, hsid1, hd1⟩ := SessionOp_apply_live hs hd op
    obtain ⟨h2, obj2, hrest, hs2, hsid2, hd2⟩ := ih hs1 hd1
    refine ⟨h2, obj2, ?_, hs2, hsid2.trans hsid1, hd2⟩
    simp only [applyOps, hop, hrest]

theorem heap_get_of_lt {V : Type} {h : Heap V} {s : Ptr} (hs : s < h.length) :
    h[s]? = some (h.get ⟨s, hs⟩) :=
  List.getElem?_eq_getElem hs

/-! ## Further properties of sessions -/

/-- C11: whenever `NewSession()` succeeds, `SessionID()` of the returned session
is the hex encoding of the 64-byte buffer drawn for that call, and `Get(k)` on
the returned session fails with the key-not-found error for every key `k`. -/
theorem NewSession_fresh {V : Type} (mgr mgr' : MemorySessionManager) (h h' : Heap V)
    (r : ReadResult) (s : Ptr)
    (hnew : mgr.NewSession h r = some ((mgr', h'), (some s, none))) :
    MemorySession.SessionID h' s = some (hex.EncodeToString (drawn r))
    ∧ ∀ k : String, MemorySession.Get h' s k
        = some (none, fmt.Errorf "key %q in session (id %d) not found"
            [k, hex.EncodeToString (drawn r)]) := by
  obtain ⟨reg, _, _, _, hs, _, hh⟩ := NewSession_success_inv hnew
  subst hs hh
  have hobj : (h ++ [MemorySession.mk (hex.EncodeToString (drawn r))
      (GoMap.make : GoMap String (Option V))])[h.length]? = some _ :=
    List.getElem?_concat_length _ _
  refine ⟨?_, ?_⟩
  · rw [SessionID_eq, hobj]; rfl
  · intro k
    rw [Get_eq hobj k]
    rfl

theorem NewSession_fresh_witness :
    NewMemorySessionManager.NewSession ([] : Heap String) readSevens
      = some ((worldOne.mgr, worldOne.heap), (some 0, none))
    ∧ MemorySession.SessionID worldOne.heap 0
        = some (hex.EncodeToString (List.replicate 64 7))
    ∧ MemorySession.Get worldOne.heap 0 "user"
        = some (none, fmt.Errorf "key %q in session (id %d) not found"
            ["user", hex.EncodeToString (List.replicate 64 7)]) :=
  ⟨rfl,
    (NewSession_fresh NewMemorySessionManager worldOne.mgr [] worldOne.heap
      readSevens 0 rfl).1,
    (NewSession_fresh NewMemorySessionManager worldOne.mgr ([] : Heap String) worldOne.heap
      readSevens 0 rfl).2 "user"⟩

/-- C12: in every reachable world, for every session `s` and every finite
sequence of `Set`, `Get` and `Delete` operations applied to `s`, the sequence
runs to the end and `SessionID()` returns afterwards the same string as
before. -/
theorem SessionID_immutable {V : Type} {w : World V} {log : List (Call V × Ret V)}
    (hr : Reach w log) (s : Ptr) (hs : s < w.heap.length) (ops : List (SessionOp V)) :
    ∃ h' id, applyOps w.heap s ops = some h'
      ∧ MemorySession.SessionID w.heap s = some id
      ∧ MemorySession.SessionID h' s = some id := by
  have hget := heap_get_of_lt hs
  obtain ⟨h', obj', hrun, hs', hsid, _⟩ :=
    applyOps_live ops hget (hr.wf.data_ne s _ hget)
  refine ⟨h', (w.heap.get ⟨s, hs⟩).sid, hrun, ?_, ?_⟩
  · rw [SessionID_eq, hget]; rfl
  · rw [SessionID_eq, hs', ← hsid]; rfl

theorem SessionID_immutable_witness :
    Reach worldOne [(Call.NewSession readSevens, Ret.session (some 0) none)]
    ∧ 0 < worldOne.heap.length
    ∧ ∃ h' id, applyOps worldOne.heap 0 opsMixed = some h'
      ∧ MemorySession.SessionID worldOne.heap 0 = some id
      ∧ MemorySession.SessionID h' 0 = some id :=
  ⟨worldOne_reach, by decide, SessionID_immutable worldOne_reach 0 (by decide) opsMixed⟩

/-- C13: in every reachable world, for every session `s` (each was produced by
`NewSession`) and after any further finite sequence of data operations on it,
the data map of `s` is not nil, and `Set(k, v)` returns a nil error, without
panic, for every key `k` and value `v`. -/
theorem Set_always_succeeds {V : Type} {w : World V} {log : List (Call V × Ret V)}
    (hr : Reach w log) (s : Ptr) (hs : s < w.heap.length) (ops : List (SessionOp V)) :
    ∃ h', applyOps w.heap s ops = some h'
      ∧ (∃ obj l, h'[s]? = some obj ∧ obj.data = some l)
      ∧ ∀ (k : String) (v : Option V), ∃ h'', MemorySession.Set h' s k v = some (h'', none) := by
  have hget := heap_get_of_lt hs
  obtain ⟨h', obj', hrun, hs', _, hd'⟩ :=
    applyOps_live ops hget (hr.wf.data_ne s _ hget)
  obtain ⟨l, hl⟩ := Option.ne_none_iff_exists'.mp hd'
  exact ⟨h', hrun, ⟨obj', l, hs', hl⟩, fun k v => ⟨_, Set_eq hs' hl k v⟩⟩

theorem Set_always_succeeds_witness :
    Reach worldOne [(Call.NewSession readSevens, Ret.session (some 0) none)]
    ∧ 0 < worldOne.heap.length
    ∧ ∃ h', applyOps worldOne.heap 0 opsMixed = some h'
      ∧ (∃ obj l, h'[0]? = some obj ∧ obj.data = some l)
      ∧ ∀ (k : String) (v : Option String),
          ∃ h'', MemorySession.Set h' 0 k v = some (h'', none) :=
  ⟨worldOne_reach, by decide, Set_always_succeeds worldOne_reach 0 (by decide) opsMixed⟩

/-! ## Further properties of the manager -/

theorem GoMap.lookup_delete_ne {K V : Type} [DecidableEq K] (m : GoMap K V) {k k' : K}
    (hne : k' ≠ k) : (m.delete k).lookup k' = m.lookup k' := by
  cases m with
  | none => rfl
  | some l => exact entryLookup_erase_ne hne l

theorem Session_eq_iff_lookup (mgr : MemorySessionManager) (id : String) (s : Ptr) :
    mgr.Session id = (some s, none) ↔ mgr.sessions.lookup id = some s := by
  cases hl : mgr.sessions.lookup id with
  | none => simp [MemorySessionManager.Session, hl, fmt.Errorf]
  | some p => simp [MemorySessionManager.Session, hl]

theorem drawn_of_full {r : ReadResult} (hl : r.p.length = 64) : drawn r = r.p := by
  simp only [drawn, rand.Read, sessionIDLength, List.length_replicate, hl]
  rw [← hl, List.take_length, List.drop_of_length_le (by simp), List.append_nil]

/-- C14: in every reachable world, if `Session(id)` succeeds with session `s`
then any further `NewSession()` call returns (with or without error), after it
`Session(id)` still succeeds, and when the call failed or generated an
identifier other than `id`, `Session(id)` still returns `s` and the object `s`
points to, data bag included, is as before. -/
theorem Session_stays_resolvable {V : Type} {w : World V} {log : List (Call V × Ret V)}
    (hr : Reach w log) (id : String) (s : Ptr) (hsess : w.mgr.Session id = (some s, none))
    (r : ReadResult) :
    ∃ mgr' h' ret, w.mgr.NewSession w.heap r = some ((mgr', h'), ret)
      ∧ (∃ s', mgr'.Session id = (some s', none))
      ∧ ((ret.2 ≠ none ∨ (w.mgr.sessionID r).1 ≠ id) →
          mgr'.Session id = (some s, none) ∧ h'[s]? = w.heap[s]?) := by
  by_cases hbad : r.n ≠ 64 ∨ r.err ≠ none
  · exact ⟨w.mgr, w.heap, _, NewSession_fail w.mgr w.heap hbad, ⟨s, hsess⟩,
      fun _ => ⟨hsess, rfl⟩⟩
  · have hn : r.n = 64 := by
      by_contra hc; exact hbad (Or.inl hc)
    have he : r.err = none := by
      by_contra hc; exact hbad (Or.inr hc)
    obtain ⟨reg, hreg⟩ := Option.ne_none_iff_exists'.mp hr.wf.sessions_ne
    have hlk := (Session_eq_iff_lookup w.mgr id s).mp hsess
    obtain ⟨obj, hobj, _⟩ := hr.wf.bound id s hlk
    refine ⟨_, _, _, NewSession_ok w.heap hn he hreg, ?_, ?_⟩
    · by_cases hid : hex.EncodeToString (drawn r) = id
      · refine ⟨w.heap.length, ?_⟩
        rw [Session_eq_iff_lookup]
        simp [GoMap.lookup, entryLookup, hid]
      · refine ⟨s, ?_⟩
        rw [Session_eq_iff_lookup]
        simp only [GoMap.lookup, entryLookup]
        rw [if_neg hid, entryLookup_erase_ne (fun h => hid h.symm)]
        rw [hreg] at hlk
        exact hlk
    · intro hcond
      have hid : hex.EncodeToString (drawn r) ≠ id := by
        rcases hcond with hc | hc
        · exact absurd rfl hc
        · rw [sessionID_ok w.mgr hn he] at hc
          exact hc
      refine ⟨?_, List.getElem?_append_left (heap_lt_of_get hobj)⟩
      rw [Session_eq_iff_lookup]
      simp only [GoMap.lookup, entryLookup]
      rw [if_neg hid, entryLookup_erase_ne (fun h => hid h.symm)]
      rw [hreg] at hlk
      exact hlk

theorem Session_stays_resolvable_witness :
    Reach worldOne [(Call.NewSession readSevens, Ret.session (some 0) none)]
    ∧ worldOne.mgr.Session (hex.EncodeToString (List.replicate 64 7)) = (some 0, none)
    ∧ ∃ mgr' h' ret, worldOne.mgr.NewSession worldOne.heap readABs = some ((mgr', h'), ret)
      ∧ (∃ s', mgr'.Session (hex.EncodeToString (List.replicate 64 7)) = (some s', none))
      ∧ ((ret.2 ≠ none
            ∨ (worldOne.mgr.sessionID readABs).1 ≠ hex.EncodeToString (List.replicate 64 7)) →
          mgr'.Session (hex.EncodeToString (List.replicate 64 7)) = (some 0, none)
            ∧ h'[0]? = worldOne.heap[0]?) :=
  ⟨worldOne_reach, by decide,
    Session_stays_resolvable worldOne_reach (hex.EncodeToString (List.replicate 64 7)) 0
      (by decide) readABs⟩

theorem Reach.created_sid {V : Type} {w : World V} {log : List (Call V × Ret V)}
    (hr : Reach w log) {r : ReadResult} {s : Ptr}
    (hmem : (Call.NewSession r, Ret.session (some s) none) ∈ log) :
    ∃ obj, w.heap[s]? = some obj ∧ obj.sid = hex.EncodeToString (drawn r) := by
  induction hr with
  | init => simp at hmem
  | @step w w' log c ret hreach hc ih =>
    rcases call_cases hreach.wf hc with ⟨h, hcb, _⟩ | ⟨p, objp, d, hp, _, h, hcb, _⟩
      | ⟨r', reg, hcr, _, _, _, h, hret⟩
    · subst h
      rcases List.mem_cons.mp hmem with heq | htail
      · rw [← heq] at hcb
        simp [createdBy] at hcb
      · exact ih htail
    · subst h
      rcases List.mem_cons.mp hmem with heq | htail
      · rw [← heq] at hcb
        simp [createdBy] at hcb
      · obtain ⟨obj, hobj, hsid⟩ := ih htail
        by_cases hps : p = s
        · subst hps
          rw [hp] at hobj
          cases hobj
          exact ⟨_, heap_get_set_self hp _, hsid⟩
        · refine ⟨obj, ?_, hsid⟩
          show (w.heap.set p _)[s]? = some obj
          rw [List.getElem?_set_ne hps]
          exact hobj
    · subst h hcr hret
      rcases List.mem_cons.mp hmem with heq | htail
      · simp only [Prod.mk.injEq, Call.NewSession.injEq, Ret.session.injEq,
          Option.some.injEq, and_true] at heq
        obtain ⟨hrr, hss⟩ := heq
        subst hrr hss
        exact ⟨_, List.getElem?_concat_length _ _, rfl⟩
      · obtain ⟨obj, hobj, hsid⟩ := ih htail
        refine ⟨obj, ?_, hsid⟩
        show (w.heap ++ [_])[s]? = some obj
        rw [List.getElem?_append_left (heap_lt_of_get hobj)]
        exact hobj

/-- C15: in any reachable world whose log holds an earlier successful
`NewSession()` that drew buffer `drawn r1` and returned session `s1` (whatever
calls came after it, `Set` on `s1` included), a `NewSession()` that draws the
same buffer without error succeeds with a nil error and a new session `s2`
that has the identifier of `s1`; `Session` of that identifier returns `s2`,
whose bag is empty; no identifier resolves to `s1` any more, while the object
of `s1`, with the data set on it, is untouched in the heap. -/
theorem collision_not_detected {V : Type} {w : World V} {log : List (Call V × Ret V)}
    (hr : Reach w log) (r1 r2 : ReadResult) (s1 : Ptr)
    (hfirst : (Call.NewSession r1, Ret.session (some s1) none) ∈ log)
    (hn : r2.n = 64) (he : r2.err = none) (hsame : drawn r2 = drawn r1) :
    ∃ mgr2 h2 s2 id, w.mgr.NewSession w.heap r2 = some ((mgr2, h2), (some s2, none))
      ∧ s2 ≠ s1
      ∧ MemorySession.SessionID w.heap s1 = some id
      ∧ MemorySession.SessionID h2 s1 = some id
      ∧ MemorySession.SessionID h2 s2 = some id
      ∧ mgr2.Session id = (some s2, none)
      ∧ (∀ k' : String, MemorySession.Get h2 s2 k'
          = some (none, fmt.Errorf "key %q in session (id %d) not found" [k', id]))
      ∧ (∀ id' : String, mgr2.Session id' ≠ (some s1, none))
      ∧ h2[s1]? = w.heap[s1]?
      ∧ ∀ k : String, MemorySession.Get h2 s1 k = MemorySession.Get w.heap s1 k := by
  obtain ⟨reg, hreg⟩ := Option.ne_none_iff_exists'.mp hr.wf.sessions_ne
  obtain ⟨obj1, hobj1, hsid1⟩ := hr.created_sid hfirst
  have hlt : s1 < w.heap.length := heap_lt_of_get hobj1
  have hnew2 := NewSession_ok w.heap hn he hreg
  rw [hsame] at hnew2
  have hkeep : (w.heap ++ [MemorySession.mk (hex.EncodeToString (drawn r1))
      (GoMap.make : GoMap String (Option V))])[s1]? = w.heap[s1]? :=
    List.getElem?_append_left hlt
  have hnewobj : (w.heap ++ [MemorySession.mk (hex.EncodeToString (drawn r1))
      (GoMap.make : GoMap String (Option V))])[w.heap.length]? = some _ :=
    List.getElem?_concat_length _ _
  refine ⟨_, _, _, hex.EncodeToString (drawn r1), hnew2, Nat.ne_of_gt hlt, ?_, ?_, ?_, ?_,
    ?_, ?_, hkeep, ?_⟩
  · rw [SessionID_eq, hobj1, ← hsid1]; rfl
  · rw [SessionID_eq, hkeep, hobj1, ← hsid1]; rfl
  · rw [SessionID_eq, hnewobj]; rfl
  · rw [Session_eq_iff_lookup]
    simp [GoMap.lookup, entryLookup]
  · intro k'
    rw [Get_eq hnewobj k']
    rfl
  · intro id' hcontra
    rw [Session_eq_iff_lookup] at hcontra
    simp only [GoMap.lookup, entryLookup] at hcontra
    by_cases hid : hex.EncodeToString (drawn r1) = id'
    · rw [if_pos hid] at hcontra
      exact Nat.ne_of_gt hlt (Option.some.inj hcontra)
    · rw [if_neg hid, entryLookup_erase_ne (fun h => hid h.symm)] at hcontra
      have hlk : w.mgr.sessions.lookup id' = some s1 := by
        rw [hreg]; exact hcontra
      obtain ⟨obj, hobj, hobjid⟩ := hr.wf.bound id' s1 hlk
      rw [hobj1] at hobj
      cases hobj
      exact hid (hsid1.symm.trans hobjid)
  · intro k
    simp only [MemorySession.Get, hkeep]

theorem collision_not_detected_witness :
    Reach worldOneAlice logOneAlice
    ∧ (Call.NewSession readSevens, Ret.session (some 0) none) ∈ logOneAlice
    ∧ readSevens.n = 64 ∧ readSevens.err = none ∧ drawn readSevens = drawn readSevens
    ∧ MemorySession.Get worldOneAlice.heap 0 "user" = some (some "alice", none)
    ∧ ∃ mgr2 h2 s2 id, worldOneAlice.mgr.NewSession worldOneAlice.heap readSevens
          = some ((mgr2, h2), (some s2, none))
      ∧ s2 ≠ 0
      ∧ MemorySession.SessionID worldOneAlice.heap 0 = some id
      ∧ MemorySession.SessionID h2 0 = some id
      ∧ MemorySession.SessionID h2 s2 = some id
      ∧ mgr2.Session id = (some s2, none)
      ∧ (∀ k' : String, MemorySession.Get h2 s2 k'
          = some (none, fmt.Errorf "key %q in session (id %d) not found" [k', id]))
      ∧ (∀ id' : String, mgr2.Session id' ≠ (some 0, none))
      ∧ h2[0]? = worldOneAlice.heap[0]?
      ∧ ∀ k : String, MemorySession.Get h2 0 k = MemorySession.Get worldOneAlice.heap 0 k :=
  ⟨worldOneAlice_reach, List.mem_cons_of_mem _ (List.mem_cons_self _ _), rfl, rfl, rfl,
    by decide,
    collision_not_detected worldOneAlice_reach readSevens readSevens 0
      (List.mem_cons_of_mem _ (List.mem_cons_self _ _)) rfl rfl rfl⟩

/-- C16: for every live session `s`, keys `k' ≠ k` and value `v`, `Get(k')`
returns the same value and error after `s.Delete(k)` as before it, and, the
data map of a session not being nil, the same after `s.Set(k, v)` as before
it. -/
theorem Set_Delete_frame {V : Type} (h : Heap V) (s : Ptr) (obj : MemorySession V)
    (hs : h[s]? = some obj) (k k' : String) (hne : k' ≠ k) (v : Option V) :
    (obj.data ≠ none → ∃ h', MemorySession.Set h s k v = some (h', none)
        ∧ MemorySession.Get h' s k' = MemorySession.Get h s k')
    ∧ ∃ h', MemorySession.Delete h s k = some (h', none)
        ∧ MemorySession.Get h' s k' = MemorySession.Get h s k' := by
  constructor
  · intro hd
    obtain ⟨l, hl⟩ := Option.ne_none_iff_exists'.mp hd
    refine ⟨_, Set_eq hs hl k v, ?_⟩
    rw [Get_eq (heap_get_set_self hs _) k', Get_eq hs k']
    have hlk : GoMap.lookup (some ((k, v) :: entryErase k l)) k' = obj.data.lookup k' := by
      rw [hl]
      exact GoMap.lookup_assign_ne (m := some l) rfl hne
    simp only [hlk]
  · refine ⟨_, Delete_eq hs k, ?_⟩
    rw [Get_eq (heap_get_set_self hs _) k', Get_eq hs k']
    simp only [GoMap.lookup_delete_ne obj.data hne]

theorem Set_Delete_frame_witness :
    heapAlice[0]? = some { sid := "0a", data := some [("user", some "alice")] }
    ∧ "user" ≠ "role"
    ∧ (∃ h', MemorySession.Set heapAlice 0 "role" (some "admin") = some (h', none)
        ∧ MemorySession.Get h' 0 "user" = MemorySession.Get heapAlice 0 "user")
    ∧ ∃ h', MemorySession.Delete heapAlice 0 "role" = some (h', none)
        ∧ MemorySession.Get h' 0 "user" = MemorySession.Get heapAlice 0 "user" :=
  ⟨rfl, by decide,
    (Set_Delete_frame heapAlice 0 { sid := "0a", data := some [("user", some "alice")] }
      rfl "role" "user" (by decide) (some "admin")).1 (by decide),
    (Set_Delete_frame heapAlice 0 { sid := "0a", data := some [("user", some "alice")] }
      rfl "role" "user" (by decide) (some "admin")).2⟩

/-- C17: in every world reachable from a fresh manager by API calls, whenever
`Session(id)` succeeds and returns `s`, `s.SessionID()` is `id`. -/
theorem Session_key_is_SessionID {V : Type} {w : World V} {log : List (Call V × Ret V)}
    (hr : Reach w log) (id : String) (s : Ptr)
    (hsess : w.mgr.Session id = (some s, none)) :
    MemorySession.SessionID w.heap s = some id := by
  obtain ⟨obj, hobj, hid⟩ :=
    hr.wf.bound id s ((Session_eq_iff_lookup w.mgr id s).mp hsess)
  rw [SessionID_eq, hobj, ← hid]
  rfl

theorem Session_key_is_SessionID_witness :
    Reach worldAB logAB
    ∧ worldAB.mgr.Session (hex.EncodeToString (List.replicate 64 171)) = (some 1, none)
    ∧ MemorySession.SessionID worldAB.heap 1
        = some (hex.EncodeToString (List.replicate 64 171)) :=
  ⟨worldAB_reach, by decide,
    Session_key_is_SessionID worldAB_reach (hex.EncodeToString (List.replicate 64 171)) 1
      (by decide)⟩

/-- C18: when the random source reports a count other than 64 or an error,
`NewSession()` returns a nil session together with an error, and the manager
and the heap are exactly as before the call, so `Session(id)` gives the same
result for every `id`. -/
theorem failed_NewSession_changes_nothing {V : Type} (mgr : MemorySessionManager)
    (h : Heap V) (r : ReadResult) (hbad : r.n ≠ 64 ∨ r.err ≠ none) :
    ∃ mgr' h' e, mgr.NewSession h r = some ((mgr', h'), (none, some e))
      ∧ mgr' = mgr ∧ h' = h
      ∧ ∀ id : String, mgr'.Session id = mgr.Session id :=
  ⟨mgr, h, _, NewSession_fail mgr h hbad, rfl, rfl, fun _ => rfl⟩

theorem failed_NewSession_changes_nothing_witness :
    (readShort.n ≠ 64 ∨ readShort.err ≠ none)
    ∧ ∃ mgr' h' e, worldOne.mgr.NewSession worldOne.heap readShort
          = some ((mgr', h'), (none, some e))
      ∧ mgr' = worldOne.mgr ∧ h' = worldOne.heap
      ∧ ∀ id : String, mgr'.Session id = worldOne.mgr.Session id :=
  ⟨by decide, failed_NewSession_changes_nothing worldOne.mgr worldOne.heap readShort
    (by decide)⟩

/-- C19: for two reads that deliver 64 bytes in full without error, different
byte sequences give different identifiers; and when two successful
`NewSession()` calls return sessions with the same identifier, the random
source delivered the same bytes to both. -/
theorem sessionID_injective (mgr1 mgr2 : MemorySessionManager) (r1 r2 : ReadResult)
    (hn1 : r1.n = 64) (he1 : r1.err = none) (hl1 : r1.p.length = 64)
    (hn2 : r2.n = 64) (he2 : r2.err = none) (hl2 : r2.p.length = 64) :
    (r1.p ≠ r2.p → (mgr1.sessionID r1).1 ≠ (mgr2.sessionID r2).1)
    ∧ ∀ (V : Type) (hA hA' hB hB' : Heap V) (mgrA mgrB : MemorySessionManager) (sA sB : Ptr),
        mgr1.NewSession hA r1 = some ((mgrA, hA'), (some sA, none)) →
        mgr2.NewSession hB r2 = some ((mgrB, hB'), (some sB, none)) →
        MemorySession.SessionID hA' sA = MemorySession.SessionID hB' sB → r1.p = r2.p := by
  constructor
  · intro hne heq
    rw [sessionID_ok mgr1 hn1 he1, sessionID_ok mgr2 hn2 he2, drawn_of_full hl1,
      drawn_of_full hl2] at heq
    exact hne (EncodeToString_inj heq)
  · intro V hA hA' hB hB' mgrA mgrB sA sB hnewA hnewB hsid
    obtain ⟨_, _, _, _, hsA, _, hhA⟩ := NewSession_success_inv hnewA
    obtain ⟨_, _, _, _, hsB, _, hhB⟩ := NewSession_success_inv hnewB
    subst hsA hhA hsB hhB
    rw [SessionID_eq, SessionID_eq, List.getElem?_concat_length,
      List.getElem?_concat_length] at hsid
    simp only [Option.map_some', Option.some.injEq] at hsid
    rw [drawn_of_full hl1, drawn_of_full hl2] at hsid
    exact EncodeToString_inj hsid

theorem sessionID_injective_witness :
    readSevens.n = 64 ∧ readSevens.err = none ∧ readSevens.p.length = 64
    ∧ readABs.n = 64 ∧ readABs.err = none ∧ readABs.p.length = 64
    ∧ readSevens.p ≠ readABs.p
    ∧ (NewMemorySessionManager.sessionID readSevens).1
        ≠ (NewMemorySessionManager.sessionID readABs).1 :=
  ⟨rfl, rfl, by decide, rfl, rfl, by decide, by decide,
    (sessionID_injective NewMemorySessionManager NewMemorySessionManager readSevens readABs
      rfl rfl (by decide) rfl rfl (by decide)).1 (by decide)⟩

end Golf
